import Mathlib

/-!
Shallow embedding of the availability scheduling and timeline-resolution
engine of the room-management dashboard (app/lib/roomData.ts,
app/components/RoomModal.tsx, app/context/AppContext.tsx and the
app/api/schedules route), together with proofs about its behaviour.

JavaScript strings are embedded as Lean `String`, compared by the
code-unit lexicographic order `strLt`/`strLe` below (the semantics of
JS `<` / `<=` on strings).  JS `Date` objects held at local midnight
are embedded as calendar triples `CalDate`; `setDate`-based day
arithmetic is embedded as exact calendar-day stepping (`addDays`).
Record objects keyed by room number / room key are embedded as
functions to `Option`, where a missing key is `none`.
-/

/-- The four room statuses of `RoomStatus` in app/lib/roomData.ts. -/
inductive RoomStatus where
  | available
  | occupied
  | maintenance
  | cleaning
deriving DecidableEq

/-- One date-ranged status assignment (`StatusEntry` in app/lib/roomData.ts,
with the optional `checkoutTime` field used by the API validator). -/
structure StatusEntry where
  id : String
  status : RoomStatus
  startDate : String
  endDate : String
  bookedBy : Option String := none
  checkoutTime : Option String := none
deriving DecidableEq

/-- A room (`Room` in app/lib/roomData.ts); `status` is the default status
used when no schedule entry covers a day. -/
structure Room where
  number : Nat
  name : Option String := none
  status : RoomStatus
  floor : Option Nat := none
  capacity : Nat
  zone : Option String := none
deriving DecidableEq

/-- Code-unit lexicographic strict comparison on character lists:
the semantics of the JavaScript `<` operator on strings. -/
def charListLt : List Char → List Char → Bool
  | _, [] => false
  | [], _ :: _ => true
  | a :: as, b :: bs => if a < b then true else if b < a then false else charListLt as bs

/-- JS `a < b` on strings. -/
def strLt (a b : String) : Bool := charListLt a.data b.data

/-- JS `a <= b` on strings. -/
def strLe (a b : String) : Bool := !(strLt b a)

/-- JS `String.prototype.trim`: drop whitespace from both ends. -/
def jsTrim (s : String) : String :=
  String.mk (((s.data.dropWhile Char.isWhitespace).reverse.dropWhile Char.isWhitespace).reverse)

/-- A calendar date at local midnight: the embedding of a JS `Date`
whose time-of-day fields are zero.  `month` is 1-based (the value of
`getMonth() + 1`), `day` is `getDate()`. -/
structure CalDate where
  year : Nat
  month : Nat
  day : Nat
deriving DecidableEq

/-- Decimal digits of `n`, most significant first, computed with
explicit fuel so that the function is structurally recursive. -/
def natDigitsGo (fuel : Nat) (n : Nat) : List Char :=
  match fuel with
  | 0 => []
  | fuel + 1 =>
    if n < 10 then [Nat.digitChar n]
    else natDigitsGo fuel (n / 10) ++ [Nat.digitChar (n % 10)]

/-- Decimal digits of `n`, most significant first. -/
def natDigits (n : Nat) : List Char := natDigitsGo (n + 1) n

/-- The embedding of JS `String(n)` for a non-negative integer. -/
def natToString (n : Nat) : String := String.mk (natDigits n)

/-- JS `s.padStart(2, "0")`. -/
def padTwo (s : String) : String :=
  if s.length < 2 then String.mk (List.replicate (2 - s.length) '0') ++ s else s

/-- Embeds `formatDateInput` from app/lib/roomData.ts: renders the date's local
year/month/day fields; the year is NOT zero-padded, month and day are
padded to two digits. -/
def formatDateInput (value : CalDate) : String :=
  natToString value.year ++ "-" ++ padTwo (natToString value.month) ++ "-" ++
    padTwo (natToString value.day)

/-- Gregorian leap-year test (the rule implemented by JS `Date`). -/
def isLeapYear (y : Nat) : Bool :=
  (y % 4 == 0 && y % 100 != 0) || y % 400 == 0

/-- Number of days in the given month of the given year. -/
def daysInMonth (y m : Nat) : Nat :=
  if m = 2 then (if isLeapYear y then 29 else 28)
  else if m = 4 ∨ m = 6 ∨ m = 9 ∨ m = 11 then 30
  else 31

/-- The calendar day after `d`. -/
def nextDay (d : CalDate) : CalDate :=
  if d.day < daysInMonth d.year d.month then ⟨d.year, d.month, d.day + 1⟩
  else if d.month < 12 then ⟨d.year, d.month + 1, 1⟩
  else ⟨d.year + 1, 1, 1⟩

/-- The calendar day before `d`. -/
def prevDay (d : CalDate) : CalDate :=
  if 1 < d.day then ⟨d.year, d.month, d.day - 1⟩
  else if 1 < d.month then ⟨d.year, d.month - 1, daysInMonth d.year (d.month - 1)⟩
  else ⟨d.year - 1, 12, 31⟩

/-- Iterate a day-stepping function. -/
def iterDays (f : CalDate → CalDate) : Nat → CalDate → CalDate
  | 0, d => d
  | n + 1, d => iterDays f n (f d)

/-- The embedding of `date.setDate(date.getDate() + k)` on a
local-midnight date: shift by `k` calendar days. -/
def addDays (d : CalDate) (k : Int) : CalDate :=
  if 0 ≤ k then iterDays nextDay k.toNat d else iterDays prevDay (-k).toNat d

/-- The range-containment test of `getStatusForDate`:
`dateStr >= entry.startDate && dateStr <= entry.endDate`. -/
def containsDateKey (entry : StatusEntry) (dateStr : String) : Bool :=
  strLe entry.startDate dateStr && strLe dateStr entry.endDate

/-- The downward index loop shared by `getStatusForDate` and
`getScheduleEntryForDate`: walk the list from its last element towards
the first and return the first entry whose range contains `dateStr`
(so later entries take priority). -/
def scanRev (dateStr : String) : List StatusEntry → Option StatusEntry
  | [] => none
  | entry :: rest =>
    match scanRev dateStr rest with
    | some found => some found
    | none => if containsDateKey entry dateStr then some entry else none

/-- Embeds `getStatusForDate` from app/lib/roomData.ts. -/
def getStatusForDate (schedule : List StatusEntry) (date : CalDate)
    (defaultStatus : RoomStatus) : RoomStatus :=
  match scanRev (formatDateInput date) schedule with
  | some entry => entry.status
  | none => defaultStatus

/-- Embeds `getScheduleEntryForDate` from app/lib/roomData.ts. -/
def getScheduleEntryForDate (schedule : List StatusEntry) (date : CalDate) :
    Option StatusEntry :=
  scanRev (formatDateInput date) schedule

/-- The per-room row of `buildTimeline`:
`Array.from(\x7b length: days \x7d, (_, i) => getStatusForDate(roomSchedule, today + startDayOffset + i, room.status))`. -/
def timelineRow (roomSchedule : List StatusEntry) (days : Nat) (startDayOffset : Int)
    (today : CalDate) (defaultStatus : RoomStatus) : List RoomStatus :=
  (List.range days).map
    (fun (i : Nat) =>
      getStatusForDate roomSchedule (addDays today (startDayOffset + (i : Int))) defaultStatus)

/-- Embeds `buildTimeline` from app/lib/roomData.ts.  The record
`Record<number, RoomStatus[]>` is embedded as a function from room
numbers to `Option`; assignment to `timeline[room.number]` overwrites
any earlier binding, as in JS.  `today` (computed inside the source
from the clock) is an explicit parameter. -/
def buildTimeline (rooms : List Room) (days : Nat)
    (schedules : Nat → Option (List StatusEntry)) (startDayOffset : Int)
    (today : CalDate) : Nat → Option (List RoomStatus) :=
  rooms.foldl
    (fun timeline room =>
      let roomSchedule := (schedules room.number).getD []
      let row := timelineRow roomSchedule days startDayOffset today room.status
      fun n => if n = room.number then some row else timeline n)
    (fun _ => none)

/-- Embeds `findOverlap` from RoomModal.tsx: first entry in list order whose
inclusive range intersects `[start, end]`, skipping excluded ids. -/
def findOverlap (localSchedule : List StatusEntry) (start stop : String)
    (excludeIds : List String) : Option StatusEntry :=
  localSchedule.find?
    (fun entry =>
      !(excludeIds.contains entry.id) &&
        (strLe start entry.endDate && strLe entry.startDate stop))

/-- Outcome of one RoomModal editing handler: `silent` is an early
`return` with no message (missing selected date / inverted range),
`bookingNameError` and `overlapError` set the corresponding error state
and leave the schedule unchanged, `ok` commits the new entry list. -/
inductive EditResult where
  | silent
  | bookingNameError
  | overlapError (conflict : StatusEntry)
  | ok (entries : List StatusEntry)
deriving DecidableEq

/-- Embeds `handleSetDayStatus` from RoomModal.tsx.  `newId` stands for the
`generateId()` call; the selected date, the status button pressed and
the booker-name input are parameters. -/
def handleSetDayStatus (localSchedule : List StatusEntry) (selectedDateRaw : String)
    (status : RoomStatus) (dayBookerName : String) (newId : String) : EditResult :=
  if selectedDateRaw = "" then .silent
  else
    let trimmedDayBooker := jsTrim dayBookerName
    if status = .occupied ∧ trimmedDayBooker = "" then .bookingNameError
    else
      let replacedIds :=
        (localSchedule.filter
          (fun entry => entry.startDate == selectedDateRaw && entry.endDate == selectedDateRaw)).map
          (fun entry => entry.id)
      match findOverlap localSchedule selectedDateRaw selectedDateRaw replacedIds with
      | some overlap => .overlapError overlap
      | none =>
        let filtered := localSchedule.filter (fun entry => !(replacedIds.contains entry.id))
        .ok (filtered ++
          [{ id := newId, status := status, startDate := selectedDateRaw,
             endDate := selectedDateRaw,
             bookedBy := if status = .occupied then some trimmedDayBooker else none }])

/-- Embeds `handleAddRange` from RoomModal.tsx. -/
def handleAddRange (localSchedule : List StatusEntry) (rangeStart rangeEnd : String)
    (rangeStatus : RoomStatus) (rangeBookerName : String) (newId : String) : EditResult :=
  if strLt rangeEnd rangeStart then .silent
  else
    let trimmedRangeBooker := jsTrim rangeBookerName
    if rangeStatus = .occupied ∧ trimmedRangeBooker = "" then .bookingNameError
    else
      match findOverlap localSchedule rangeStart rangeEnd [] with
      | some overlap => .overlapError overlap
      | none =>
        .ok (localSchedule ++
          [{ id := newId, status := rangeStatus, startDate := rangeStart,
             endDate := rangeEnd,
             bookedBy := if rangeStatus = .occupied then some trimmedRangeBooker else none }])

/-- Embeds `handleRemoveEntry` from RoomModal.tsx. -/
def handleRemoveEntry (localSchedule : List StatusEntry) (id : String) : List StatusEntry :=
  localSchedule.filter (fun entry => entry.id != id)

/-- Closed-interval intersection of two entries' date ranges:
`a.startDate <= b.endDate && b.startDate <= a.endDate`. -/
def entriesIntersect (a b : StatusEntry) : Bool :=
  strLe a.startDate b.endDate && strLe b.startDate a.endDate

/-- No two entries of the list have intersecting ranges. -/
def noOverlaps (s : List StatusEntry) : Prop :=
  s.Pairwise (fun a b => entriesIntersect a b = false)

/-- Room schedules reachable from the empty entry list by the public
schedule-editing operations of RoomModal.tsx. -/
inductive ReachableSchedule : List StatusEntry → Prop where
  | empty : ReachableSchedule []
  | setDay {s s' : List StatusEntry} {d : String} {st : RoomStatus} {b i : String} :
      ReachableSchedule s → handleSetDayStatus s d st b i = .ok s' → ReachableSchedule s'
  | addRange {s s' : List StatusEntry} {a b : String} {st : RoomStatus} {nm i : String} :
      ReachableSchedule s → handleAddRange s a b st nm i = .ok s' → ReachableSchedule s'
  | remove {s : List StatusEntry} {id : String} :
      ReachableSchedule s → ReachableSchedule (handleRemoveEntry s id)

/-- The two audit actions (`ActivityLogAction` in app/lib/roomData.ts). -/
inductive ActivityAction where
  | schedule_added
  | schedule_removed
deriving DecidableEq

/-- One audit event (`ActivityLogCreatePayload` in AppContext.tsx). -/
structure ActivityLogCreatePayload where
  roomNumber : Nat
  action : ActivityAction
  status : RoomStatus
  startDate : String
  endDate : String
  createdAt : String
deriving DecidableEq

/-- Embeds `buildScheduleLogPayload` from AppContext.tsx: id-set diff of the
previous and next entry lists; added events in `nextEntries` order, then
removed events in `previousEntries` order.  `createdAt` stands for the
`new Date().toISOString()` call. -/
def buildScheduleLogPayload (roomNumber : Nat) (previousEntries nextEntries : List StatusEntry)
    (createdAt : String) : List ActivityLogCreatePayload :=
  let previousIds := previousEntries.map (fun entry => entry.id)
  let nextIds := nextEntries.map (fun entry => entry.id)
  (nextEntries.filter (fun entry => !(previousIds.contains entry.id))).map
    (fun entry =>
      { roomNumber := roomNumber, action := .schedule_added, status := entry.status,
        startDate := entry.startDate, endDate := entry.endDate, createdAt := createdAt })
  ++ (previousEntries.filter (fun entry => !(nextIds.contains entry.id))).map
    (fun entry =>
      { roomNumber := roomNumber, action := .schedule_removed, status := entry.status,
        startDate := entry.startDate, endDate := entry.endDate, createdAt := createdAt })

/-- The `setSchedules` update shape used twice in `handleUpdateSchedule`:
bind `roomNumber` to `entries`, deleting the key when `entries` is empty. -/
def applyRoomUpdate (m : Nat → Option (List StatusEntry)) (roomNumber : Nat)
    (entries : List StatusEntry) : Nat → Option (List StatusEntry) :=
  fun n => if n = roomNumber then (if entries.isEmpty then none else some entries) else m n

/-- The toast shown after a successful schedule write. -/
def savedToast (roomNumber : Nat) : String :=
  "Availability saved for Room " ++ natToString roomNumber

/-- The toast shown by the catch block of `handleUpdateSchedule`. -/
def saveFailedToast (roomNumber : Nat) : String :=
  "Failed to save availability for Room " ++ natToString roomNumber

/-- Final client-side state produced by one `handleUpdateSchedule` call:
the in-memory schedules map and the toasts set, in order. -/
structure UpdateOutcome where
  schedules : Nat → Option (List StatusEntry)
  toasts : List String

/-- Embeds `handleUpdateSchedule` from AppContext.tsx, with the two awaited
fetches abstracted by the booleans `scheduleWriteOk` (the PATCH to
/api/schedules succeeded with an ok status) and `logWriteOk` (the POST
to /api/logs succeeded).  The optimistic update runs first; any throw
lands in the catch block, which restores the previous entries and sets
the failure toast.  The log write is skipped when the diff payload is
empty. -/
def handleUpdateSchedule (schedules : Nat → Option (List StatusEntry)) (roomNumber : Nat)
    (entries : List StatusEntry) (scheduleWriteOk logWriteOk : Bool)
    (createdAt : String) : UpdateOutcome :=
  let previousEntries := (schedules roomNumber).getD []
  let logPayload := buildScheduleLogPayload roomNumber previousEntries entries createdAt
  let optimistic := applyRoomUpdate schedules roomNumber entries
  if scheduleWriteOk = false then
    { schedules := applyRoomUpdate optimistic roomNumber previousEntries,
      toasts := [saveFailedToast roomNumber] }
  else if logPayload.isEmpty then
    { schedules := optimistic, toasts := [savedToast roomNumber] }
  else if logWriteOk then
    { schedules := optimistic, toasts := [savedToast roomNumber] }
  else
    { schedules := applyRoomUpdate optimistic roomNumber previousEntries,
      toasts := [savedToast roomNumber, saveFailedToast roomNumber] }

/-- Embeds `isDateInput` from the app/api/schedules route: the string matches
the regex for four digits, a dash, two digits, a dash, two digits. -/
def isDateInput (s : String) : Bool :=
  match s.data with
  | [y1, y2, y3, y4, h1, m1, m2, h2, d1, d2] =>
    y1.isDigit && y2.isDigit && y3.isDigit && y4.isDigit && h1 == '-' &&
      m1.isDigit && m2.isDigit && h2 == '-' && d1.isDigit && d2.isDigit
  | _ => false

/-- Embeds `isBookerName` from the app/api/schedules route. -/
def isBookerName (s : String) : Bool :=
  0 < (jsTrim s).length && (jsTrim s).length ≤ 120

/-- Embeds `isCheckoutTime` from the app/api/schedules route. -/
def isCheckoutTime (s : String) : Bool :=
  match s.data with
  | [h1, h2, c, m1, m2] => h1.isDigit && h2.isDigit && c == ':' && m1.isDigit && m2.isDigit
  | _ => false

/-- Embeds `isStatusEntry` from the app/api/schedules route, on an entry that
already has the embedded record shape (the `typeof` and enum-membership
checks of the source hold by typing). -/
def isStatusEntry (entry : StatusEntry) : Bool :=
  isDateInput entry.startDate && isDateInput entry.endDate &&
    (match entry.bookedBy with
     | none => true
     | some b => isBookerName b) &&
    (match entry.checkoutTime with
     | none => true
     | some t => isCheckoutTime t)

/-- The per-entry sanitizing map of `normalizeEntries`: an occupied
entry whose `bookedBy` trims to a non-empty string gets the trimmed
name; otherwise the entry is spread through unchanged (in particular a
`bookedBy` that trims to the empty string is left as it was). -/
def sanitizeEntry (entry : StatusEntry) : StatusEntry :=
  let trimmedBooker :=
    match entry.bookedBy with
    | some b => jsTrim b
    | none => ""
  { entry with
    bookedBy :=
      if entry.status = .occupied ∧ 0 < trimmedBooker.length then some trimmedBooker
      else entry.bookedBy }

/-- The sort order of `normalizeEntries`: by `startDate` ascending,
ties broken by `id` ascending (string comparison embeds the
`localeCompare` calls of the source). -/
def entryLe (a b : StatusEntry) : Bool :=
  if a.startDate = b.startDate then strLe a.id b.id else strLt a.startDate b.startDate

/-- Embeds `normalizeEntries` from the app/api/schedules route: sanitize every
entry, then stable-sort. -/
def normalizeEntries (entries : List StatusEntry) : List StatusEntry :=
  (entries.map sanitizeEntry).mergeSort entryLe

/-- The GET read of one room:
`schedules[String(roomNumber)] ?? []`. -/
def getRoomEntries (schedules : String → Option (List StatusEntry)) (roomNumber : Nat) :
    List StatusEntry :=
  (schedules (natToString roomNumber)).getD []

/-- Outcome of the PATCH handler: a 400 rejection or the new persisted
map together with the entries returned to the caller. -/
inductive PatchResult where
  | badRequest (message : String)
  | ok (schedules : String → Option (List StatusEntry)) (entries : List StatusEntry)

/-- The PATCH handler of the app/api/schedules route, after body
parsing: validate every entry, normalize, then delete the room's key
when the normalized list is empty and bind it otherwise.  Room numbers
are the positive integers used by the app, rendered with `String(...)`
as map keys. -/
def patchSchedules (schedules : String → Option (List StatusEntry)) (roomNumber : Nat)
    (entries : List StatusEntry) : PatchResult :=
  if !(entries.all isStatusEntry) then .badRequest ("Invalid schedule entry payload.")
  else
    let key := natToString roomNumber
    let nextEntries := normalizeEntries entries
    .ok
      (fun k =>
        if k = key then (if nextEntries.isEmpty then none else some nextEntries)
        else schedules k)
      nextEntries

/-- Chronological order on calendar dates: `a` is on or before `b`. -/
def calDateLe (a b : CalDate) : Prop :=
  a.year < b.year ∨
    (a.year = b.year ∧ (a.month < b.month ∨ (a.month = b.month ∧ a.day ≤ b.day)))

/-- A calendar date whose key has the fixed ten-character YYYY-MM-DD
shape: a valid Gregorian field range with a four-digit year. -/
def validDateKey (d : CalDate) : Prop :=
  1000 ≤ d.year ∧ d.year ≤ 9999 ∧ 1 ≤ d.month ∧ d.month ≤ 12 ∧ 1 ≤ d.day ∧ d.day ≤ 31

/-! ### Concrete sample data used by the witness theorems -/

/-- A sample occupied entry spanning June 1-3. -/
def demoEntry : StatusEntry :=
  { id := "a1", status := .occupied, startDate := "2025-06-01", endDate := "2025-06-03",
    bookedBy := some ("Jane Doe") }

/-- A one-entry schedule produced by a successful `handleAddRange`. -/
def c1Demo : List StatusEntry := [demoEntry]

/-- A sample room for the timeline witness. -/
def c3Room : Room := { number := 101, status := .available, capacity := 2 }

/-- A single-day maintenance entry for the timeline witness. -/
def c3Entry : StatusEntry :=
  { id := "m1", status := .maintenance, startDate := "2025-06-10", endDate := "2025-06-10" }

/-- A schedules map binding room 101 only. -/
def c3Map : Nat → Option (List StatusEntry) := fun n => if n = 101 then some [c3Entry] else none

/-- An empty client schedules map. -/
def c5Map : Nat → Option (List StatusEntry) := fun _ => none

/-- The entry list whose save succeeds but whose audit-log write fails. -/
def c5Entries : List StatusEntry :=
  [{ id := "e1", status := .maintenance, startDate := "2025-06-01", endDate := "2025-06-02" }]

/-- Two valid entries, deliberately out of date order and with an
untrimmed booker name, for the normalization witness. -/
def c7Entries : List StatusEntry :=
  [{ id := "b2", status := .occupied, startDate := "2025-06-02", endDate := "2025-06-03",
     bookedBy := some ("  Jane Doe ") },
   { id := "a1", status := .cleaning, startDate := "2025-06-01", endDate := "2025-06-01" }]

/-- An empty server schedules map. -/
def c7Map : String → Option (List StatusEntry) := fun _ => none

/-- A server schedules map binding room key 7 only. -/
def c9Map : String → Option (List StatusEntry) :=
  fun k =>
    if k = "7" then
      some [{ id := "z1", status := .cleaning, startDate := "2025-01-01",
              endDate := "2025-01-02" }]
    else none

/-- A valid replacement entry list for room 101. -/
def c9Entries : List StatusEntry :=
  [{ id := "n1", status := .available, startDate := "2025-03-01", endDate := "2025-03-02" }]

/-- The previous schedule of room 101 before the failed save. -/
def c10Prev : List StatusEntry :=
  [{ id := "p1", status := .occupied, startDate := "2025-05-01", endDate := "2025-05-02",
     bookedBy := some ("Ana") }]

/-- A client schedules map binding room 101 to `c10Prev`. -/
def c10Map : Nat → Option (List StatusEntry) := fun n => if n = 101 then some c10Prev else none

/-- The replacement entry list whose save fails. -/
def c10Next : List StatusEntry :=
  [{ id := "p2", status := .cleaning, startDate := "2025-05-03", endDate := "2025-05-04" }]

/-! ### Helper lemmas about list scanning -/

theorem find?_eq_head?_filter {α : Type} (p : α → Bool) (l : List α) :
    List.find? p l = (l.filter p).head? := by
  induction l with
  | nil => rfl
  | cons a l ih =>
    cases h : p a
    · rw [List.find?_cons_of_neg _ (by simp [h]), List.filter_cons_of_neg (by simp [h]), ih]
    · rw [List.find?_cons_of_pos _ h, List.filter_cons_of_pos h, List.head?_cons]

theorem scanRev_eq_find?_reverse (key : String) (l : List StatusEntry) :
    scanRev key l = List.find? (fun e => containsDateKey e key) l.reverse := by
  induction l with
  | nil => rfl
  | cons e rest ih =>
    show (match scanRev key rest with
          | some found => some found
          | none => if containsDateKey e key then some e else none) = _
    rw [List.reverse_cons, List.find?_append, ← ih]
    cases scanRev key rest with
    | some f => simp
    | none => cases h : containsDateKey e key <;> simp [List.find?_cons, h]

theorem scanRev_eq_getLast?_filter (key : String) (l : List StatusEntry) :
    scanRev key l = (l.filter (fun e => containsDateKey e key)).getLast? := by
  rw [scanRev_eq_find?_reverse, find?_eq_head?_filter, List.filter_reverse,
    List.head?_reverse]

/-! ### Helper lemmas about `findOverlap` -/

theorem findOverlap_eq_none {s : List StatusEntry} {start stop : String}
    {excl : List String} (h : findOverlap s start stop excl = none) :
    ∀ e ∈ s, excl.contains e.id = false →
      ¬(strLe start e.endDate = true ∧ strLe e.startDate stop = true) := by
  intro e he hex hcontra
  have := List.find?_eq_none.mp h e he
  simp only [Bool.and_eq_true, Bool.not_eq_true'] at this
  exact this ⟨hex, hcontra.1, hcontra.2⟩

theorem findOverlap_eq_some {s : List StatusEntry} {start stop : String}
    {excl : List String} {e : StatusEntry} (h : findOverlap s start stop excl = some e) :
    e ∈ s ∧ excl.contains e.id = false ∧
      strLe start e.endDate = true ∧ strLe e.startDate stop = true := by
  have hmem := List.mem_of_find?_eq_some h
  have hp := List.find?_some h
  simp only [Bool.and_eq_true, Bool.not_eq_true'] at hp
  exact ⟨hmem, hp.1, hp.2.1, hp.2.2⟩

/-! ### Preservation of the no-overlap invariant -/

theorem noOverlaps_handleSetDayStatus {s s' : List StatusEntry} {d : String}
    {st : RoomStatus} {b i : String} (hinv : noOverlaps s)
    (hok : handleSetDayStatus s d st b i = .ok s') : noOverlaps s' := by
  simp only [handleSetDayStatus] at hok
  split at hok
  · cases hok
  · split at hok
    · cases hok
    · split at hok
      · cases hok
      · rename_i hnone
        cases hok
        unfold noOverlaps
        rw [List.pairwise_append]
        refine ⟨hinv.filter _, List.pairwise_singleton _ _, ?_⟩
        intro e he new hnew
        simp only [List.mem_singleton] at hnew
        subst hnew
        rw [List.mem_filter] at he
        obtain ⟨hes, hef⟩ := he
        rw [Bool.not_eq_true'] at hef
        have hno := findOverlap_eq_none hnone e hes hef
        simp only [entriesIntersect]
        cases h1 : strLe e.startDate d <;> cases h2 : strLe d e.endDate <;>
          simp_all

theorem noOverlaps_handleAddRange {s s' : List StatusEntry} {a b : String}
    {st : RoomStatus} {nm i : String} (hinv : noOverlaps s)
    (hok : handleAddRange s a b st nm i = .ok s') : noOverlaps s' := by
  simp only [handleAddRange] at hok
  split at hok
  · cases hok
  · split at hok
    · cases hok
    · split at hok
      · cases hok
      · rename_i hnone
        cases hok
        unfold noOverlaps
        rw [List.pairwise_append]
        refine ⟨hinv, List.pairwise_singleton _ _, ?_⟩
        intro e he new hnew
        simp only [List.mem_singleton] at hnew
        subst hnew
        have hno := findOverlap_eq_none hnone e he (by simp)
        simp only [entriesIntersect]
        cases h1 : strLe e.startDate b <;> cases h2 : strLe a e.endDate <;>
          simp_all

/-- C1: every room schedule reachable from the empty entry list by the
public schedule-editing operations has no two entries with intersecting
inclusive date ranges, and any candidate rejected with an overlap error
intersects at least one existing entry of the schedule. -/
theorem c1_no_overlap_invariant :
    (∀ s, ReachableSchedule s → noOverlaps s) ∧
    (∀ s d st b i conflict, handleSetDayStatus s d st b i = .overlapError conflict →
      conflict ∈ s ∧ strLe d conflict.endDate = true ∧ strLe conflict.startDate d = true) ∧
    (∀ s a b st nm i conflict, handleAddRange s a b st nm i = .overlapError conflict →
      conflict ∈ s ∧ strLe a conflict.endDate = true ∧ strLe conflict.startDate b = true) := by
  refine ⟨?_, ?_, ?_⟩
  · intro s h
    induction h with
    | empty => exact List.Pairwise.nil
    | setDay _ hok ih => exact noOverlaps_handleSetDayStatus ih hok
    | addRange _ hok ih => exact noOverlaps_handleAddRange ih hok
    | remove _ ih => exact ih.filter _
  · intro s d st b i conflict h
    simp only [handleSetDayStatus] at h
    split at h
    · cases h
    · split at h
      · cases h
      · split at h
        · rename_i hsome
          cases h
          obtain ⟨hm, _, h1, h2⟩ := findOverlap_eq_some hsome
          exact ⟨hm, h1, h2⟩
        · cases h
  · intro s a b st nm i conflict h
    simp only [handleAddRange] at h
    split at h
    · cases h
    · split at h
      · cases h
      · split at h
        · rename_i hsome
          cases h
          obtain ⟨hm, _, h1, h2⟩ := findOverlap_eq_some hsome
          exact ⟨hm, h1, h2⟩
        · cases h

/-- The schedule `c1Demo` is reachable by one range addition. -/
theorem c1Demo_reachable : ReachableSchedule c1Demo :=
  @ReachableSchedule.addRange [] c1Demo ("2025-06-01") ("2025-06-03") .occupied
    ("Jane Doe") ("a1") ReachableSchedule.empty (by decide)

/-- C1 witness: the reachable schedule `c1Demo` satisfies the invariant,
and a rejected single-day candidate on 2025-06-02 intersects the
existing entry. -/
theorem c1_no_overlap_invariant_witness :
    noOverlaps c1Demo ∧
      (demoEntry ∈ c1Demo ∧ strLe ("2025-06-02") demoEntry.endDate = true ∧
        strLe demoEntry.startDate ("2025-06-02") = true) :=
  ⟨c1_no_overlap_invariant.1 c1Demo c1Demo_reachable,
   c1_no_overlap_invariant.2.1 c1Demo ("2025-06-02") .cleaning ("") ("b2") demoEntry
     (by decide)⟩

/-- C2: `getStatusForDate` returns the status of the last entry in the
list whose inclusive range contains the date's key under string
comparison, and the default status when no entry contains it. -/
theorem c2_resolution_last_wins (schedule : List StatusEntry) (date : CalDate)
    (defaultStatus : RoomStatus) :
    getStatusForDate schedule date defaultStatus =
      (match (schedule.filter (fun e => containsDateKey e (formatDateInput date))).getLast? with
       | some e => e.status
       | none => defaultStatus) := by
  unfold getStatusForDate
  rw [scanRev_eq_getLast?_filter]

/-- C4: the audit diff emits one added event per entry of `nextEntries`
whose id is absent from `previousEntries`, one removed event per entry
of `previousEntries` whose id is absent from `nextEntries`, nothing for
common ids, with all added events first in next order and the removed
events after them in previous order. -/
theorem c4_diff_events (roomNumber : Nat) (previousEntries nextEntries : List StatusEntry)
    (createdAt : String) :
    ((buildScheduleLogPayload roomNumber previousEntries nextEntries createdAt).countP
        (fun ev => ev.action == ActivityAction.schedule_added)
      = nextEntries.countP
          (fun e => !((previousEntries.map (fun x => x.id)).contains e.id))) ∧
    ((buildScheduleLogPayload roomNumber previousEntries nextEntries createdAt).countP
        (fun ev => ev.action == ActivityAction.schedule_removed)
      = previousEntries.countP
          (fun e => !((nextEntries.map (fun x => x.id)).contains e.id))) ∧
    buildScheduleLogPayload roomNumber previousEntries nextEntries createdAt
      = (nextEntries.filter
            (fun e => !((previousEntries.map (fun x => x.id)).contains e.id))).map
          (fun e =>
            { roomNumber := roomNumber, action := .schedule_added, status := e.status,
              startDate := e.startDate, endDate := e.endDate, createdAt := createdAt })
        ++ (previousEntries.filter
              (fun e => !((nextEntries.map (fun x => x.id)).contains e.id))).map
          (fun e =>
            { roomNumber := roomNumber, action := .schedule_removed, status := e.status,
              startDate := e.startDate, endDate := e.endDate, createdAt := createdAt }) := by
  refine ⟨?_, ?_, rfl⟩
  · simp only [buildScheduleLogPayload, List.countP_append, List.countP_map, Function.comp]
    simp [List.countP_true, List.countP_false, List.countP_eq_length_filter]
  · simp only [buildScheduleLogPayload, List.countP_append, List.countP_map, Function.comp]
    simp [List.countP_true, List.countP_false, List.countP_eq_length_filter]

/-- C6: setting a single day or adding a range with status occupied and
an empty trimmed booker name fails with the booking-name error, while
any other status never produces that error. -/
theorem c6_booking_name_guard (s : List StatusEntry) (d : String) (st : RoomStatus)
    (booker i : String) :
    (d ≠ "" → st = .occupied → jsTrim booker = "" →
      handleSetDayStatus s d st booker i = .bookingNameError) ∧
    (st ≠ .occupied → handleSetDayStatus s d st booker i ≠ .bookingNameError) ∧
    (∀ a b, (strLt b a = false → st = .occupied → jsTrim booker = "" →
        handleAddRange s a b st booker i = .bookingNameError) ∧
      (st ≠ .occupied → handleAddRange s a b st booker i ≠ .bookingNameError)) := by
  refine ⟨?_, ?_, fun a b => ⟨?_, ?_⟩⟩
  · intro hd hst htrim
    simp only [handleSetDayStatus]
    rw [if_neg hd, if_pos ⟨hst, htrim⟩]
  · intro hst
    simp only [handleSetDayStatus]
    split
    · simp
    · split
      · rename_i hcond
        exact fun _ => hst hcond.1
      · split <;> simp
  · intro hcmp hst htrim
    simp only [handleAddRange]
    rw [if_neg (by simp [hcmp]), if_pos ⟨hst, htrim⟩]
  · intro hst
    simp only [handleAddRange]
    split
    · simp
    · split
      · rename_i hcond
        exact fun _ => hst hcond.1
      · split <;> simp

/-- C6 witness: with an all-whitespace booker name, the occupied
single-day and range operations both fail with the booking-name error. -/
theorem c6_booking_name_guard_witness :
    handleSetDayStatus [] ("2025-06-02") .occupied ("  ") ("x1") = .bookingNameError ∧
    handleAddRange [] ("2025-06-01") ("2025-06-03") .occupied ("  ") ("x1")
      = .bookingNameError :=
  ⟨(c6_booking_name_guard [] ("2025-06-02") .occupied ("  ") ("x1")).1 (by decide) rfl
      (by decide),
   ((c6_booking_name_guard [] ("2025-06-02") .occupied ("  ") ("x1")).2.2 ("2025-06-01")
      ("2025-06-03")).1 (by decide) rfl (by decide)⟩

/-- C10: when the schedules PATCH fails, `handleUpdateSchedule` restores
the in-memory map for the room exactly to its previous entry list,
deleting the key when the previous list was empty, leaves every other
room's binding unchanged, and the visible entry list of every room
equals its pre-update value. -/
theorem c10_failed_save_rollback (schedules : Nat → Option (List StatusEntry))
    (roomNumber : Nat) (entries : List StatusEntry) (logWriteOk : Bool) (createdAt : String) :
    ((handleUpdateSchedule schedules roomNumber entries false logWriteOk createdAt).schedules
        roomNumber
      = (if ((schedules roomNumber).getD []).isEmpty then none
         else some ((schedules roomNumber).getD []))) ∧
    (∀ n, n ≠ roomNumber →
      (handleUpdateSchedule schedules roomNumber entries false logWriteOk createdAt).schedules n
        = schedules n) ∧
    (∀ n, ((handleUpdateSchedule schedules roomNumber entries false logWriteOk
        createdAt).schedules n).getD []
      = (schedules n).getD []) := by
  refine ⟨?_, ?_, ?_⟩
  · simp [handleUpdateSchedule, applyRoomUpdate]
  · intro n hn
    simp [handleUpdateSchedule, applyRoomUpdate, hn]
  · intro n
    by_cases hn : n = roomNumber
    · subst hn
      simp only [handleUpdateSchedule, applyRoomUpdate, if_true, if_pos rfl]
      split
      · rename_i hemp
        rw [List.isEmpty_iff.mp hemp]
        rfl
      · rfl
    · simp [handleUpdateSchedule, applyRoomUpdate, hn]

/-- C10 witness: a failed save leaves an unrelated room's binding
untouched. -/
theorem c10_failed_save_rollback_witness :
    (handleUpdateSchedule c10Map 101 c10Next false true ("t0")).schedules 5 = c10Map 5 :=
  (c10_failed_save_rollback c10Map 101 c10Next true ("t0")).2.1 5 (by decide)

/-- C5 counterexample: with an empty previous schedule, a successful
schedule write followed by a failed audit-log write does NOT keep the
updated in-memory schedule state; the catch block rolls it back to the
previous (empty) state. -/
theorem c5_counterexample :
    (handleUpdateSchedule c5Map 101 c5Entries true false ("t0")).schedules 101
        ≠ some c5Entries ∧
      (handleUpdateSchedule c5Map 101 c5Entries true false ("t0")).schedules 101 = none := by
  constructor
  · decide
  · decide

/-- C5 amended: when the audit-log write fails after a successful
schedule write (and the diff payload is non-empty so the log write is
attempted), `handleUpdateSchedule` rolls the in-memory schedules map
back to the previous entries for that room, leaves other rooms
unchanged, and surfaces the saved toast followed by the failure toast;
no revert of the persisted write is issued. -/
theorem c5_amended_log_failure_rolls_back (schedules : Nat → Option (List StatusEntry))
    (roomNumber : Nat) (entries : List StatusEntry) (createdAt : String)
    (hpay : buildScheduleLogPayload roomNumber ((schedules roomNumber).getD []) entries
        createdAt ≠ []) :
    ((handleUpdateSchedule schedules roomNumber entries true false createdAt).schedules
        roomNumber
      = (if ((schedules roomNumber).getD []).isEmpty then none
         else some ((schedules roomNumber).getD []))) ∧
    (∀ n, n ≠ roomNumber →
      (handleUpdateSchedule schedules roomNumber entries true false createdAt).schedules n
        = schedules n) ∧
    (handleUpdateSchedule schedules roomNumber entries true false createdAt).toasts
      = [savedToast roomNumber, saveFailedToast roomNumber] := by
  have hpe : (buildScheduleLogPayload roomNumber ((schedules roomNumber).getD []) entries
      createdAt).isEmpty = false := by
    cases h : buildScheduleLogPayload roomNumber ((schedules roomNumber).getD []) entries
        createdAt with
    | nil => exact absurd h hpay
    | cons x xs => rfl
  refine ⟨?_, ?_, ?_⟩
  · simp [handleUpdateSchedule, applyRoomUpdate, hpe]
  · intro n hn
    simp [handleUpdateSchedule, applyRoomUpdate, hpe, hn]
  · simp [handleUpdateSchedule, applyRoomUpdate, hpe]

/-- C5 amended witness: an unrelated room's binding is unchanged by the
rolled-back update. -/
theorem c5_amended_witness :
    (handleUpdateSchedule c5Map 101 c5Entries true false ("t0")).schedules 202 = c5Map 202 :=
  (c5_amended_log_failure_rolls_back c5Map 101 c5Entries ("t0") (by decide)).2.1 202
    (by decide)

/-- Looking up a room with a unique number in the built timeline yields
exactly that room's day-by-day row. -/
theorem buildTimeline_lookup (rooms : List Room) (days : Nat)
    (schedules : Nat → Option (List StatusEntry)) (startDayOffset : Int) (today : CalDate)
    (room : Room) (hmem : room ∈ rooms)
    (hnd : (rooms.map (fun r => r.number)).Nodup) :
    buildTimeline rooms days schedules startDayOffset today room.number
      = some (timelineRow ((schedules room.number).getD []) days startDayOffset today
          room.status) := by
  induction rooms using List.reverseRecOn with
  | nil => cases hmem
  | append_singleton l r ih =>
    simp only [buildTimeline, List.foldl_concat] at *
    rcases List.mem_append.mp hmem with hl | hr
    · have hmaps : ((l.map (fun r => r.number)) ++ [r.number]).Nodup := by
        simpa using hnd
      have hdisj := (List.nodup_append.mp hmaps).2.2
      have hne : room.number ≠ r.number := by
        intro hEq
        exact hdisj (List.mem_map_of_mem _ hl) (by simp [hEq])
      rw [if_neg hne]
      exact ih hl (List.nodup_append.mp hmaps).1
    · have hr' : room = r := by simpa using hr
      subst hr'
      rw [if_pos rfl]

/-- C3: for every room set with distinct numbers, every window length
and every start offset, the built timeline maps each room's number to a
dense row of exactly `days` statuses whose `i`-th element is
`getStatusForDate` of that room's entries at the calendar date
`today + startDayOffset + i`, with the room's default status as
fallback. -/
theorem c3_timeline_window (rooms : List Room) (days : Nat)
    (schedules : Nat → Option (List StatusEntry)) (startDayOffset : Int) (today : CalDate)
    (room : Room) (hmem : room ∈ rooms)
    (hnd : (rooms.map (fun r => r.number)).Nodup) :
    ∃ row, buildTimeline rooms days schedules startDayOffset today room.number = some row ∧
      row.length = days ∧
      ∀ i, i < days →
        row[i]? = some (getStatusForDate ((schedules room.number).getD [])
          (addDays today (startDayOffset + (i : Int))) room.status) := by
  refine ⟨_, buildTimeline_lookup rooms days schedules startDayOffset today room hmem hnd,
    ?_, ?_⟩
  · rw [timelineRow, List.length_map, List.length_range]
  · intro i hi
    rw [timelineRow, List.getElem?_map, List.getElem?_range hi]
    rfl

/-- C3 witness: a 3-day window at offset -1 for room 101. -/
theorem c3_timeline_window_witness :
    ∃ row, buildTimeline [c3Room] 3 c3Map (-1) ⟨2025, 6, 10⟩ c3Room.number = some row ∧
      row.length = 3 ∧
      ∀ i : Nat, i < 3 →
        row[i]? = some (getStatusForDate ((c3Map c3Room.number).getD [])
          (addDays ⟨2025, 6, 10⟩ (-1 + (i : Int))) c3Room.status) :=
  c3_timeline_window [c3Room] 3 c3Map (-1) ⟨2025, 6, 10⟩ c3Room (by decide) (by decide)

/-! ### Order lemmas for the string comparison -/

theorem charListLt_irrefl (l : List Char) : charListLt l l = false := by
  induction l with
  | nil => rfl
  | cons a as ih => simp [charListLt, ih]

theorem charListLt_cons_iff {x y : Char} {as bs : List Char} :
    charListLt (x :: as) (y :: bs) = true ↔ x < y ∨ (x = y ∧ charListLt as bs = true) := by
  show (if x < y then true else if y < x then false else charListLt as bs) = true ↔ _
  by_cases h1 : x < y
  · simp [h1]
  · by_cases h2 : y < x
    · rw [if_neg h1, if_pos h2]
      simp only [Bool.false_eq_true, false_iff]
      rintro (h | ⟨rfl, _⟩)
      · exact h1 h
      · exact lt_irrefl _ h2
    · have hxy : x = y := le_antisymm (not_lt.mp h2) (not_lt.mp h1)
      subst hxy
      rw [if_neg h1, if_neg h2]
      simp

theorem charListLt_trans {a b c : List Char} (h1 : charListLt a b = true)
    (h2 : charListLt b c = true) : charListLt a c = true := by
  induction a generalizing b c with
  | nil =>
    cases b with
    | nil => simp [charListLt] at h1
    | cons y bs =>
      cases c with
      | nil => simp [charListLt] at h2
      | cons z cs => simp [charListLt]
  | cons x as ih =>
    cases b with
    | nil => simp [charListLt] at h1
    | cons y bs =>
      cases c with
      | nil => simp [charListLt] at h2
      | cons z cs =>
        rw [charListLt_cons_iff] at h1 h2 ⊢
        rcases h1 with h1 | ⟨rfl, h1⟩
        · rcases h2 with h2 | ⟨rfl, h2⟩
          · exact Or.inl (lt_trans h1 h2)
          · exact Or.inl h1
        · rcases h2 with h2 | ⟨rfl, h2⟩
          · exact Or.inl h2
          · exact Or.inr ⟨rfl, ih h1 h2⟩

theorem charListLt_asymm {a b : List Char} (h : charListLt a b = true) :
    charListLt b a = false := by
  cases hq : charListLt b a
  · rfl
  · have hirr := charListLt_trans h hq
    rw [charListLt_irrefl] at hirr
    cases hirr

theorem charListLt_connex {a b : List Char} (h1 : charListLt a b = false)
    (h2 : charListLt b a = false) : a = b := by
  induction a generalizing b with
  | nil =>
    cases b with
    | nil => rfl
    | cons y bs => simp [charListLt] at h1
  | cons x as ih =>
    cases b with
    | nil => simp [charListLt] at h2
    | cons y bs =>
      have n1 : ¬(charListLt (x :: as) (y :: bs) = true) := by simp [h1]
      have n2 : ¬(charListLt (y :: bs) (x :: as) = true) := by simp [h2]
      rw [charListLt_cons_iff] at n1 n2
      push_neg at n1 n2
      have hxy : x = y := le_antisymm n2.1 n1.1
      subst hxy
      have e1 : charListLt as bs = false := by
        cases hq : charListLt as bs
        · rfl
        · exact absurd hq (n1.2 rfl)
      have e2 : charListLt bs as = false := by
        cases hq : charListLt bs as
        · rfl
        · exact absurd hq (n2.2 rfl)
      rw [ih e1 e2]

theorem string_data_inj {x y : String} (h : x.data = y.data) : x = y :=
  congrArg String.mk h

theorem strLe_iff {x y : String} : strLe x y = true ↔ charListLt y.data x.data = false := by
  simp [strLe, strLt]

theorem strLt_irrefl (x : String) : strLt x x = false := charListLt_irrefl _

theorem strLt_trans {x y z : String} (h1 : strLt x y = true) (h2 : strLt y z = true) :
    strLt x z = true := charListLt_trans h1 h2

theorem strLt_ne {x y : String} (h : strLt x y = true) : x ≠ y := by
  intro he
  subst he
  rw [strLt_irrefl] at h
  cases h

theorem strLe_trans {x y z : String} (h1 : strLe x y = true) (h2 : strLe y z = true) :
    strLe x z = true := by
  rw [strLe_iff] at h1 h2 ⊢
  cases hq : charListLt z.data x.data
  · rfl
  · exfalso
    cases hyz : charListLt y.data z.data
    · have hdata : y.data = z.data := charListLt_connex hyz h2
      rw [← hdata] at hq
      rw [hq] at h1
      cases h1
    · have := charListLt_trans hyz hq
      rw [this] at h1
      cases h1

theorem strLe_total (x y : String) : (strLe x y || strLe y x) = true := by
  cases h : charListLt y.data x.data
  · rw [strLe_iff.mpr h]
    rfl
  · rw [strLe_iff.mpr (charListLt_asymm h)]
    simp

/-! ### Order lemmas for the entry sort -/

theorem entryLe_trans (a b c : StatusEntry) (h1 : entryLe a b = true)
    (h2 : entryLe b c = true) : entryLe a c = true := by
  unfold entryLe at h1 h2 ⊢
  by_cases e1 : a.startDate = b.startDate <;> by_cases e2 : b.startDate = c.startDate
  · rw [if_pos e1] at h1
    rw [if_pos e2] at h2
    rw [if_pos (e1.trans e2)]
    exact strLe_trans h1 h2
  · rw [if_pos e1] at h1
    rw [if_neg e2] at h2
    rw [if_neg (by rw [e1]; exact e2), e1]
    exact h2
  · rw [if_neg e1] at h1
    rw [if_pos e2] at h2
    rw [if_neg (fun h => e1 (h.trans e2.symm)), ← e2]
    exact h1
  · rw [if_neg e1] at h1
    rw [if_neg e2] at h2
    have hlt := strLt_trans h1 h2
    rw [if_neg (strLt_ne hlt)]
    exact hlt

theorem entryLe_total (a b : StatusEntry) : (entryLe a b || entryLe b a) = true := by
  unfold entryLe
  by_cases e : a.startDate = b.startDate
  · rw [if_pos e, if_pos e.symm]
    exact strLe_total _ _
  · rw [if_neg e, if_neg (fun h => e h.symm)]
    cases h1 : strLt a.startDate b.startDate
    · cases h2 : strLt b.startDate a.startDate
      · exact absurd (string_data_inj (charListLt_connex h1 h2)) e
      · simp
    · simp

/-! ### The PATCH handler on valid input -/

theorem patchSchedules_ok {schedules : String → Option (List StatusEntry)}
    {roomNumber : Nat} {entries : List StatusEntry}
    (hv : entries.all isStatusEntry = true) :
    patchSchedules schedules roomNumber entries =
      .ok
        (fun k =>
          if k = natToString roomNumber then
            (if (normalizeEntries entries).isEmpty then none
             else some (normalizeEntries entries))
          else schedules k)
        (normalizeEntries entries) := by
  unfold patchSchedules
  rw [hv]
  rfl

/-- C9: replacing one room's entry list through the PATCH handler
changes only that room's binding, deletes the key entirely when the new
list is empty (an empty array is never stored), and a GET read of a
room with no key yields the empty array. -/
theorem c9_patch_frame (schedules : String → Option (List StatusEntry)) (roomNumber : Nat)
    (entries : List StatusEntry) (hv : entries.all isStatusEntry = true) :
    ∃ schedules' result,
      patchSchedules schedules roomNumber entries = .ok schedules' result ∧
      (∀ k, k ≠ natToString roomNumber → schedules' k = schedules k) ∧
      schedules' (natToString roomNumber) = (if result.isEmpty then none else some result) ∧
      schedules' (natToString roomNumber) ≠ some [] ∧
      (∀ (m : String → Option (List StatusEntry)) (n : Nat),
        m (natToString n) = none → getRoomEntries m n = []) := by
  refine ⟨_, _, patchSchedules_ok hv, ?_, ?_, ?_, ?_⟩
  · intro k hk
    simp only [if_neg hk]
  · by_cases hq : (normalizeEntries entries).isEmpty
    · simp [hq]
    · simp [hq]
  · by_cases hq : (normalizeEntries entries).isEmpty
    · simp [hq]
    · simp only [Bool.not_eq_true] at hq
      simp [hq]
      exact fun hc => by rw [hc] at hq; cases hq
  · intro m n h
    unfold getRoomEntries
    rw [h]
    rfl

/-- C9 witness: replacing room 101's list in a map that also binds room
key 7 keeps key 7 intact and stores the normalized list under key 101. -/
theorem c9_patch_frame_witness :
    ∃ schedules' result,
      patchSchedules c9Map 101 c9Entries = .ok schedules' result ∧
      (∀ k, k ≠ natToString 101 → schedules' k = c9Map k) ∧
      schedules' (natToString 101) = (if result.isEmpty then none else some result) ∧
      schedules' (natToString 101) ≠ some [] ∧
      (∀ (m : String → Option (List StatusEntry)) (n : Nat),
        m (natToString n) = none → getRoomEntries m n = []) :=
  c9_patch_frame c9Map 101 c9Entries (by decide)

/-- C7: on a valid body the PATCH handler persists and returns exactly
the input entries sorted by start date ascending with ties broken by id
ascending, with every occupied entry's booker name trimmed (an absent
name stays absent) and all other entry fields unchanged. -/
theorem c7_normalized_save (schedules : String → Option (List StatusEntry)) (roomNumber : Nat)
    (entries : List StatusEntry) (hv : entries.all isStatusEntry = true) :
    ∃ schedules' result,
      patchSchedules schedules roomNumber entries = .ok schedules' result ∧
      result.Perm (entries.map sanitizeEntry) ∧
      result.Pairwise (fun a b =>
        strLt a.startDate b.startDate = true ∨
          (a.startDate = b.startDate ∧ strLe a.id b.id = true)) ∧
      (∀ e ∈ entries,
        (sanitizeEntry e).id = e.id ∧ (sanitizeEntry e).status = e.status ∧
        (sanitizeEntry e).startDate = e.startDate ∧ (sanitizeEntry e).endDate = e.endDate ∧
        (sanitizeEntry e).checkoutTime = e.checkoutTime ∧
        (sanitizeEntry e).bookedBy =
          (match e.status, e.bookedBy with
           | RoomStatus.occupied, some b => some (jsTrim b)
           | _, _ => e.bookedBy)) ∧
      schedules' (natToString roomNumber) = (if result.isEmpty then none else some result) := by
  refine ⟨_, _, patchSchedules_ok hv, List.mergeSort_perm _ _, ?_, ?_, ?_⟩
  · refine (List.sorted_mergeSort entryLe_trans (fun a b => entryLe_total a b) _).imp ?_
    intro a b h
    unfold entryLe at h
    by_cases e : a.startDate = b.startDate
    · rw [if_pos e] at h
      exact Or.inr ⟨e, h⟩
    · rw [if_neg e] at h
      exact Or.inl h
  · intro e he
    have hve : isStatusEntry e = true := List.all_eq_true.mp hv e he
    refine ⟨rfl, rfl, rfl, rfl, rfl, ?_⟩
    rcases hb : e.bookedBy with _ | b
    · cases hst : e.status <;> simp [sanitizeEntry, hst, hb]
    · cases hst : e.status with
      | occupied =>
        unfold isStatusEntry at hve
        rw [hb] at hve
        simp only [Bool.and_eq_true] at hve
        have hname := hve.1.2
        unfold isBookerName at hname
        simp only [Bool.and_eq_true, decide_eq_true_eq] at hname
        simp [sanitizeEntry, hst, hb, hname.1]
      | available => simp [sanitizeEntry, hst, hb]
      | maintenance => simp [sanitizeEntry, hst, hb]
      | cleaning => simp [sanitizeEntry, hst, hb]
  · by_cases hq : (normalizeEntries entries).isEmpty
    · simp [hq]
    · simp [hq]

/-- C7 witness: two valid entries given out of order, with an occupied
entry whose booker name carries surrounding whitespace. -/
theorem c7_normalized_save_witness :
    ∃ schedules' result,
      patchSchedules c7Map 101 c7Entries = .ok schedules' result ∧
      result.Perm (c7Entries.map sanitizeEntry) ∧
      result.Pairwise (fun a b =>
        strLt a.startDate b.startDate = true ∨
          (a.startDate = b.startDate ∧ strLe a.id b.id = true)) ∧
      (∀ e ∈ c7Entries,
        (sanitizeEntry e).id = e.id ∧ (sanitizeEntry e).status = e.status ∧
        (sanitizeEntry e).startDate = e.startDate ∧ (sanitizeEntry e).endDate = e.endDate ∧
        (sanitizeEntry e).checkoutTime = e.checkoutTime ∧
        (sanitizeEntry e).bookedBy =
          (match e.status, e.bookedBy with
           | RoomStatus.occupied, some b => some (jsTrim b)
           | _, _ => e.bookedBy)) ∧
      schedules' (natToString 101) = (if result.isEmpty then none else some result) :=
  c7_normalized_save c7Map 101 c7Entries (by decide)

/-! ### Digit rendering lemmas for the date-key order -/

theorem charListLt_nil_nil : charListLt [] [] = false := rfl

theorem digitChar_lt_digitChar {x y : Nat} (hx : x ≤ 9) (hy : y ≤ 9) :
    (Nat.digitChar x < Nat.digitChar y) ↔ x < y := by
  interval_cases x <;> interval_cases y <;> simp <;> decide

theorem digitChar_inj_iff {x y : Nat} (hx : x ≤ 9) (hy : y ≤ 9) :
    (Nat.digitChar x = Nat.digitChar y) ↔ x = y := by
  interval_cases x <;> interval_cases y <;> simp <;> decide

theorem natDigitsGo_fuel (f1 : Nat) : ∀ (f2 n : Nat), n < f1 → n < f2 →
    natDigitsGo f1 n = natDigitsGo f2 n := by
  induction f1 with
  | zero => exact fun f2 n h1 _ => absurd h1 (Nat.not_lt_zero n)
  | succ f ih =>
    intro f2 n h1 h2
    cases f2 with
    | zero => exact absurd h2 (Nat.not_lt_zero n)
    | succ f2' =>
      by_cases h : n < 10
      · simp only [natDigitsGo, if_pos h]
      · simp only [natDigitsGo, if_neg h]
        rw [ih f2' (n / 10) (by omega) (by omega)]

theorem natDigits_small {n : Nat} (h : n < 10) : natDigits n = [Nat.digitChar n] := by
  simp [natDigits, natDigitsGo, h]

theorem natDigits_step {n : Nat} (h : 10 ≤ n) :
    natDigits n = natDigits (n / 10) ++ [Nat.digitChar (n % 10)] := by
  show natDigitsGo (n + 1) n = natDigitsGo (n / 10 + 1) (n / 10) ++ [Nat.digitChar (n % 10)]
  rw [show natDigitsGo (n + 1) n =
      (if n < 10 then [Nat.digitChar n]
       else natDigitsGo n (n / 10) ++ [Nat.digitChar (n % 10)]) from rfl]
  rw [if_neg (by omega)]
  rw [natDigitsGo_fuel n (n / 10 + 1) (n / 10) (by omega) (by omega)]

theorem natDigits_four {y : Nat} (h1 : 1000 ≤ y) (h2 : y ≤ 9999) :
    natDigits y = [Nat.digitChar (y / 10 / 10 / 10), Nat.digitChar (y / 10 / 10 % 10),
      Nat.digitChar (y / 10 % 10), Nat.digitChar (y % 10)] := by
  rw [natDigits_step (by omega), natDigits_step (by omega : 10 ≤ y / 10),
    natDigits_step (by omega : 10 ≤ y / 10 / 10),
    natDigits_small (by omega : y / 10 / 10 / 10 < 10)]
  rfl

theorem padTwo_natToString_data {m : Nat} (h : m ≤ 99) :
    (padTwo (natToString m)).data = [Nat.digitChar (m / 10), Nat.digitChar (m % 10)] := by
  by_cases hm : m < 10
  · rw [padTwo, natToString, natDigits_small hm]
    have hlen : (String.mk [Nat.digitChar m]).length = 1 := rfl
    rw [if_pos (by rw [hlen]; omega)]
    show ['0', Nat.digitChar m] = [Nat.digitChar (m / 10), Nat.digitChar (m % 10)]
    rw [Nat.div_eq_of_lt hm, Nat.mod_eq_of_lt hm]
    rfl
  · have hdig : natDigits m = [Nat.digitChar (m / 10), Nat.digitChar (m % 10)] := by
      rw [natDigits_step (by omega), natDigits_small (by omega : m / 10 < 10)]
      rfl
    rw [padTwo, natToString, hdig]
    have hlen : (String.mk [Nat.digitChar (m / 10), Nat.digitChar (m % 10)]).length = 2 := rfl
    rw [if_neg (by rw [hlen]; omega)]

theorem formatDateInput_data (d : CalDate) (hy1 : 1000 ≤ d.year) (hy2 : d.year ≤ 9999)
    (hmn : d.month ≤ 99) (hdy : d.day ≤ 99) :
    (formatDateInput d).data =
      [Nat.digitChar (d.year / 10 / 10 / 10), Nat.digitChar (d.year / 10 / 10 % 10),
       Nat.digitChar (d.year / 10 % 10), Nat.digitChar (d.year % 10), '-',
       Nat.digitChar (d.month / 10), Nat.digitChar (d.month % 10), '-',
       Nat.digitChar (d.day / 10), Nat.digitChar (d.day % 10)] := by
  rw [formatDateInput]
  have happ : ∀ (a b : String), (a ++ b).data = a.data ++ b.data := fun a b => rfl
  rw [happ, happ, happ, happ]
  rw [padTwo_natToString_data hmn, padTwo_natToString_data hdy]
  have hy : (natToString d.year).data = natDigits d.year := rfl
  rw [hy, natDigits_four hy1 hy2]
  simp

/-- On dates with four-digit years and two-digit-renderable month and
day fields, the string comparison of formatted keys is the numeric
comparison of the packed year-month-day value. -/
theorem charListLt_key_iff {a b : CalDate} (ha : validDateKey a) (hb : validDateKey b) :
    charListLt (formatDateInput a).data (formatDateInput b).data = true ↔
      a.year * 10000 + a.month * 100 + a.day <
        b.year * 10000 + b.month * 100 + b.day := by
  obtain ⟨ha1, ha2, ha3, ha4, ha5, ha6⟩ := ha
  obtain ⟨hb1, hb2, hb3, hb4, hb5, hb6⟩ := hb
  rw [formatDateInput_data a ha1 ha2 (by omega) (by omega),
    formatDateInput_data b hb1 hb2 (by omega) (by omega)]
  have e1 : a.year / 10 / 10 / 10 ≤ 9 := by omega
  have e2 : a.year / 10 / 10 % 10 ≤ 9 := by omega
  have e3 : a.year / 10 % 10 ≤ 9 := by omega
  have e4 : a.year % 10 ≤ 9 := by omega
  have e5 : a.month / 10 ≤ 9 := by omega
  have e6 : a.month % 10 ≤ 9 := by omega
  have e7 : a.day / 10 ≤ 9 := by omega
  have e8 : a.day % 10 ≤ 9 := by omega
  have f1 : b.year / 10 / 10 / 10 ≤ 9 := by omega
  have f2 : b.year / 10 / 10 % 10 ≤ 9 := by omega
  have f3 : b.year / 10 % 10 ≤ 9 := by omega
  have f4 : b.year % 10 ≤ 9 := by omega
  have f5 : b.month / 10 ≤ 9 := by omega
  have f6 : b.month % 10 ≤ 9 := by omega
  have f7 : b.day / 10 ≤ 9 := by omega
  have f8 : b.day % 10 ≤ 9 := by omega
  simp only [charListLt_cons_iff, charListLt_nil_nil, Bool.false_eq_true,
    lt_self_iff_false, false_or, and_false, or_false, eq_self_iff_true, true_and]
  rw [digitChar_lt_digitChar e1 f1, digitChar_inj_iff e1 f1,
    digitChar_lt_digitChar e2 f2, digitChar_inj_iff e2 f2,
    digitChar_lt_digitChar e3 f3, digitChar_inj_iff e3 f3,
    digitChar_lt_digitChar e4 f4, digitChar_inj_iff e4 f4,
    digitChar_lt_digitChar e5 f5, digitChar_inj_iff e5 f5,
    digitChar_lt_digitChar e6 f6, digitChar_inj_iff e6 f6,
    digitChar_lt_digitChar e7 f7, digitChar_inj_iff e7 f7,
    digitChar_lt_digitChar e8 f8]
  omega

/-- C8 counterexample: the date with year 999 is chronologically before
the date with year 1000, but `formatDateInput` does not pad the year,
so the 999 key compares lexicographically above the 1000 key. -/
theorem c8_counterexample :
    calDateLe ⟨999, 1, 1⟩ ⟨1000, 1, 1⟩ ∧
      strLe (formatDateInput ⟨999, 1, 1⟩) (formatDateInput ⟨1000, 1, 1⟩) = false := by
  constructor
  · unfold calDateLe
    left
    decide
  · decide

/-- C8 amended: for dates at local midnight whose years render as four
digits (1000 to 9999) and whose month and day fields are valid, the
lexicographic order of the formatted YYYY-MM-DD keys coincides with
chronological order. -/
theorem c8_amended_key_order (a b : CalDate) (ha : validDateKey a) (hb : validDateKey b) :
    calDateLe a b ↔ strLe (formatDateInput a) (formatDateInput b) = true := by
  rw [strLe_iff]
  constructor
  · intro h
    cases hq : charListLt (formatDateInput b).data (formatDateInput a).data
    · rfl
    · exfalso
      have hlt := (charListLt_key_iff hb ha).mp hq
      unfold calDateLe at h
      obtain ⟨ha1, ha2, ha3, ha4, ha5, ha6⟩ := ha
      obtain ⟨hb1, hb2, hb3, hb4, hb5, hb6⟩ := hb
      omega
  · intro h
    have hn : ¬(b.year * 10000 + b.month * 100 + b.day <
        a.year * 10000 + a.month * 100 + a.day) := by
      intro hc
      have := (charListLt_key_iff hb ha).mpr hc
      rw [h] at this
      cases this
    unfold calDateLe
    obtain ⟨ha1, ha2, ha3, ha4, ha5, ha6⟩ := ha
    obtain ⟨hb1, hb2, hb3, hb4, hb5, hb6⟩ := hb
    omega

/-- C8 amended witness: two concrete valid June 2025 dates. -/
theorem c8_amended_key_order_witness :
    validDateKey ⟨2025, 6, 1⟩ ∧
      (calDateLe ⟨2025, 6, 1⟩ ⟨2025, 6, 2⟩ ↔
        strLe (formatDateInput ⟨2025, 6, 1⟩) (formatDateInput ⟨2025, 6, 2⟩) = true) :=
  ⟨by unfold validDateKey; decide,
   c8_amended_key_order ⟨2025, 6, 1⟩ ⟨2025, 6, 2⟩ (by unfold validDateKey; decide)
     (by unfold validDateKey; decide)⟩
